import Mathlib

/-!
Verification of the FlowQ in-memory storage engine
(`crates/flowq-storage/src/memory.rs` together with the data model in
`crates/flowq-types`).  The Rust code is shallowly embedded: `DashMap`s
become association lists, `VecDeque<Message>` becomes a `List Message`
(head of the list = front of the deque), wall-clock instants become `Int`
timestamps passed explicitly, and fallible operations return
`Except Error`.
-/

namespace FlowQ

/-- Rust `MessageStatus` from `flowq-types/src/message.rs`. -/
inductive MessageStatus
  | pending
  | delivered
  | acked
  | failed
deriving DecidableEq

/-- Rust `Message` from `flowq-types/src/message.rs`.  `MessageId` (a random
UUID) is modelled as `Nat`; `Bytes` as `List Nat`; `DateTime<Utc>` as an
`Int` timestamp; the attribute map as an association list. -/
structure Message where
  id : Nat
  body : List Nat
  content_type : Option String := none
  attributes : List (String × String) := []
  priority : Nat := 5
  status : MessageStatus := MessageStatus.pending
  delivery_count : Nat := 0
  created_at : Int := 0
  expires_at : Option Int := none
  dedup_id : Option String := none
deriving DecidableEq

/-- Rust `Message::is_expired`: `self.expires_at.map(|exp| Utc::now() > exp).unwrap_or(false)`.
The wall clock read `Utc::now()` is the explicit parameter `now`. -/
def Message.is_expired (now : Int) (m : Message) : Bool :=
  match m.expires_at with
  | some exp => decide (exp < now)
  | none => false

/-- Rust `QueueConfig` from `flowq-types/src/queue.rs`, with the same defaults
as its `Default` impl. -/
structure QueueConfig where
  max_messages : Nat := 0
  max_size_bytes : Nat := 0
  message_ttl_secs : Nat := 0
  visibility_timeout_secs : Nat := 30
  max_retries : Nat := 5
  dead_letter_queue : Option String := none
  dedup_enabled : Bool := false
  dedup_window_secs : Nat := 300
deriving DecidableEq

/-- Rust `Queue` from `flowq-types/src/queue.rs` (`QueueId` modelled as `Nat`). -/
structure Queue where
  id : Nat
  name : String
  config : QueueConfig := {}
  created_at : Int := 0
  updated_at : Int := 0
deriving DecidableEq

/-- Rust `QueueStats` from `flowq-types/src/queue.rs`.  The two `f64` rate
fields are always the constant `0.0` in the code and are modelled as `Nat`. -/
structure QueueStats where
  message_count : Nat
  pending_count : Nat
  in_flight_count : Nat
  size_bytes : Nat
  consumer_count : Nat
  publish_rate : Nat
  consume_rate : Nat
deriving DecidableEq

/-- The constructors of `Error` from `flowq-types/src/error.rs` that the
storage engine produces (each carries the display string payload). -/
inductive Error
  | queueNotFound (name : String)
  | queueAlreadyExists (name : String)
  | messageNotFound (id : String)
  | queueFull (name : String)
  | queueEmpty (name : String)
  | invalidMessage (s : String)
  | storage (s : String)
  | internal (s : String)
deriving DecidableEq

/-- Rust `QueueData` from `memory.rs`: queue metadata, the pending `VecDeque`
(list head = deque front) and the in-flight `DashMap` (association list
keyed by message id). -/
structure QueueData where
  queue : Queue
  messages : List Message
  in_flight : List (Nat × Message)
deriving DecidableEq

/-- Rust `QueueData::new`. -/
def QueueData.new (q : Queue) : QueueData :=
  { queue := q, messages := [], in_flight := [] }

/-- Models `DashMap::get` on the in-flight map. -/
def ifLookup (l : List (Nat × Message)) (id : Nat) : Option Message :=
  (l.find? (fun p => p.1 == id)).map (fun p => p.2)

/-- Models `DashMap::remove`'s effect on the in-flight map. -/
def ifErase (l : List (Nat × Message)) (id : Nat) : List (Nat × Message) :=
  l.filter (fun p => p.1 != id)

/-- Models `DashMap::insert` on the in-flight map (replaces any binding of the key). -/
def ifInsert (l : List (Nat × Message)) (id : Nat) (m : Message) : List (Nat × Message) :=
  (id, m) :: ifErase l id

/-- Rust `MemoryStorage`: the top-level `DashMap<String, QueueData>`,
modelled as an association list keyed by queue name. -/
abbrev MemoryStorage := List (String × QueueData)

/-- Rust `MemoryStorage::new`. -/
def MemoryStorage.new : MemoryStorage := []

/-- Models `self.queues.get(name)` (and the lookup half of `get_mut`). -/
def getQueueData (s : MemoryStorage) (name : String) : Option QueueData :=
  (s.find? (fun p => p.1 == name)).map (fun p => p.2)

/-- Writing back through a `get_mut` guard: replace the entry for `name`. -/
def setQueueData (s : MemoryStorage) (name : String) (qd : QueueData) : MemoryStorage :=
  s.map (fun p => if p.1 == name then (p.1, qd) else p)

/-- Rust `MemoryStorage::create_queue`. -/
def create_queue (s : MemoryStorage) (q : Queue) : Except Error (Queue × MemoryStorage) :=
  if (getQueueData s q.name).isSome then
    Except.error (Error.queueAlreadyExists q.name)
  else
    Except.ok (q, s ++ [(q.name, QueueData.new q)])

/-- Rust `MemoryStorage::delete_queue`. -/
def delete_queue (s : MemoryStorage) (name : String) : Except Error MemoryStorage :=
  if (getQueueData s name).isSome then
    Except.ok (s.filter (fun p => p.1 != name))
  else
    Except.error (Error.queueNotFound name)

/-- Rust `MemoryStorage::get_queue_stats`. -/
def get_queue_stats (s : MemoryStorage) (name : String) : Except Error QueueStats :=
  match getQueueData s name with
  | none => Except.error (Error.queueNotFound name)
  | some qd =>
    Except.ok
      { message_count := qd.messages.length + qd.in_flight.length
        pending_count := qd.messages.length
        in_flight_count := qd.in_flight.length
        size_bytes := (qd.messages.map (fun m => m.body.length)).sum
        consumer_count := 0
        publish_rate := 0
        consume_rate := 0 }

/-- Rust `MemoryStorage::push_message`. -/
def push_message (s : MemoryStorage) (name : String) (msg : Message) :
    Except Error (Nat × MemoryStorage) :=
  match getQueueData s name with
  | none => Except.error (Error.queueNotFound name)
  | some qd =>
    if 0 < qd.queue.config.max_messages ∧ qd.queue.config.max_messages ≤ qd.messages.length then
      Except.error (Error.queueFull name)
    else
      Except.ok (msg.id, setQueueData s name { qd with messages := qd.messages ++ [msg] })

/-- The status/delivery-count update applied by `pop_message` to the
message it delivers (`memory.rs` lines 164-166). -/
def deliverMark (m : Message) : Message :=
  { m with status := MessageStatus.delivered, delivery_count := m.delivery_count + 1 }

/-- The `while let Some(mut message) = queue_data.messages.pop_front()`
loop of `MemoryStorage::pop_message`: skip expired messages, deliver the
first non-expired one into the in-flight map.  Returns the popped
message (if any), the remaining pending list and the new in-flight map. -/
def popLoop (now : Int) (pending : List Message) (inFlight : List (Nat × Message)) :
    Option Message × List Message × List (Nat × Message) :=
  match pending with
  | [] => (none, [], inFlight)
  | m :: rest =>
    if m.is_expired now then
      popLoop now rest inFlight
    else
      let m2 := deliverMark m
      (some m2, rest, ifInsert inFlight m2.id m2)

/-- Rust `MemoryStorage::pop_message`. -/
def pop_message (now : Int) (s : MemoryStorage) (name : String) :
    Except Error (Option Message × MemoryStorage) :=
  match getQueueData s name with
  | none => Except.error (Error.queueNotFound name)
  | some qd =>
    let r := popLoop now qd.messages qd.in_flight
    Except.ok (r.1, setQueueData s name { qd with messages := r.2.1, in_flight := r.2.2 })

/-- Rust `MemoryStorage::pop_messages`: up to `max` single pops, stopping at
the first `None`. -/
def pop_messages (now : Int) (s : MemoryStorage) (name : String) :
    Nat → Except Error (List Message × MemoryStorage)
  | 0 => Except.ok ([], s)
  | n + 1 =>
    match pop_message now s name with
    | Except.error e => Except.error e
    | Except.ok (none, s2) => Except.ok ([], s2)
    | Except.ok (some m, s2) =>
      match pop_messages now s2 name n with
      | Except.error e => Except.error e
      | Except.ok (ms, s3) => Except.ok (m :: ms, s3)

/-- Rust `MemoryStorage::peek_message`: `queue_data.messages.front().cloned()`
behind a shared (read) guard, so the state is returned unchanged. -/
def peek_message (s : MemoryStorage) (name : String) :
    Except Error (Option Message × MemoryStorage) :=
  match getQueueData s name with
  | none => Except.error (Error.queueNotFound name)
  | some qd => Except.ok (qd.messages.head?, s)

/-- Rust `MemoryStorage::ack_message`. -/
def ack_message (s : MemoryStorage) (name : String) (id : Nat) :
    Except Error MemoryStorage :=
  match getQueueData s name with
  | none => Except.error (Error.queueNotFound name)
  | some qd =>
    match ifLookup qd.in_flight id with
    | some _ => Except.ok (setQueueData s name { qd with in_flight := ifErase qd.in_flight id })
    | none => Except.error (Error.messageNotFound (toString id))

/-- Rust `MemoryStorage::nack_message`.  In the retry-exceeded branch the code
sets `status = Failed` on the removed copy and then drops it; the
`_failed` binding mirrors that dropped value. -/
def nack_message (s : MemoryStorage) (name : String) (id : Nat) :
    Except Error MemoryStorage :=
  match getQueueData s name with
  | none => Except.error (Error.queueNotFound name)
  | some qd =>
    match ifLookup qd.in_flight id with
    | none => Except.error (Error.messageNotFound (toString id))
    | some msg =>
      if qd.queue.config.max_retries ≤ msg.delivery_count then
        let _failed := { msg with status := MessageStatus.failed }
        Except.ok (setQueueData s name { qd with in_flight := ifErase qd.in_flight id })
      else
        Except.ok (setQueueData s name
          { qd with
            messages := { msg with status := MessageStatus.pending } :: qd.messages
            in_flight := ifErase qd.in_flight id })

/-- Rust `MemoryStorage::get_message`: in-flight first, then pending. -/
def get_message (s : MemoryStorage) (name : String) (id : Nat) :
    Except Error (Option Message) :=
  match getQueueData s name with
  | none => Except.error (Error.queueNotFound name)
  | some qd =>
    match ifLookup qd.in_flight id with
    | some m => Except.ok (some m)
    | none => Except.ok (qd.messages.find? (fun m => m.id == id))

/-- Rust `MemoryStorage::purge_queue`: the returned count is taken from the
pending list only, then both pending and in-flight are cleared. -/
def purge_queue (s : MemoryStorage) (name : String) :
    Except Error (Nat × MemoryStorage) :=
  match getQueueData s name with
  | none => Except.error (Error.queueNotFound name)
  | some qd =>
    Except.ok (qd.messages.length,
      setQueueData s name { qd with messages := [], in_flight := [] })

/-- The `retain` predicate of `MemoryStorage::cleanup_expired`:
keep `m` iff `m.expires_at.map(|exp| now <= exp).unwrap_or(true)`. -/
def retainLive (now : Int) (ms : List Message) : List Message :=
  ms.filter (fun m =>
    match m.expires_at with
    | some exp => decide (now ≤ exp)
    | none => true)

/-- Rust `MemoryStorage::cleanup_expired`: one `now` is captured, then every
queue's pending list is filtered with `retain`; returns the total number
removed together with the new storage.  It has no error outcome. -/
def cleanup_expired (now : Int) (s : MemoryStorage) : Nat × MemoryStorage :=
  match s with
  | [] => (0, [])
  | (n, qd) :: rest =>
    let kept := retainLive now qd.messages
    let removed := qd.messages.length - kept.length
    let r := cleanup_expired now rest
    (removed + r.1, (n, { qd with messages := kept }) :: r.2)

/-! ### Basic lemmas about the association-list operations -/

theorem getQueueData_set_same (s : MemoryStorage) (name : String) (qd0 qd : QueueData)
    (h : getQueueData s name = some qd0) :
    getQueueData (setQueueData s name qd) name = some qd := by
  induction s with
  | nil => simp [getQueueData] at h
  | cons p rest ih =>
    rcases p with ⟨n, q⟩
    by_cases hp : (n == name) = true
    · simp [getQueueData, setQueueData, List.find?, hp]
    · simp only [getQueueData, setQueueData, List.map_cons, List.find?] at h ⊢
      rw [if_neg hp]
      simp only [List.find?, hp] at h ⊢
      exact ih h

theorem popLoop_all_expired (now : Int) (pending : List Message)
    (inFlight : List (Nat × Message))
    (h : ∀ m ∈ pending, m.is_expired now = true) :
    popLoop now pending inFlight = (none, [], inFlight) := by
  induction pending with
  | nil => rfl
  | cons m rest ih =>
    have hm : m.is_expired now = true := h m (by simp)
    simp only [popLoop, hm, if_true]
    exact ih (fun x hx => h x (by simp [hx]))

theorem popLoop_first_live (now : Int) (pre : List Message) (m : Message)
    (post : List Message) (inFlight : List (Nat × Message))
    (hpre : ∀ x ∈ pre, x.is_expired now = true) (hm : m.is_expired now = false) :
    popLoop now (pre ++ m :: post) inFlight =
      (some (deliverMark m), post, ifInsert inFlight (deliverMark m).id (deliverMark m)) := by
  induction pre with
  | nil => simp [popLoop, hm]
  | cons x xs ih =>
    have hx : x.is_expired now = true := hpre x (by simp)
    simp only [List.cons_append, popLoop, hx, if_true]
    exact ih (fun y hy => hpre y (by simp [hy]))

theorem deliverMark_is_expired (now : Int) (m : Message) :
    (deliverMark m).is_expired now = m.is_expired now := rfl

theorem popLoop_fst_not_expired (now : Int) (pending : List Message)
    (inFlight : List (Nat × Message)) (m2 : Message)
    (h : (popLoop now pending inFlight).1 = some m2) :
    m2.is_expired now = false := by
  induction pending generalizing inFlight with
  | nil => simp [popLoop] at h
  | cons m rest ih =>
    by_cases hm : m.is_expired now = true
    · simp only [popLoop, hm, if_true] at h
      exact ih inFlight h
    · simp only [popLoop, hm, if_false, Bool.not_eq_true] at h
      have : m2 = deliverMark m := by
        simpa using h.symm
      rw [this, deliverMark_is_expired]
      exact Bool.not_eq_true _ ▸ hm

/-! ### C1: pop_message -/

/-- C1: for every queue, `pop_message` scans pending from the head,
silently discarding every expired message it meets; the first non-expired
message `m` is removed from pending, marked `Delivered` with
`delivery_count` incremented by exactly 1, inserted into the in-flight
map keyed by its id, and a copy is returned.  If every pending message is
expired (in particular if pending is empty) the call returns `none`
inside `ok`, not an error. -/
theorem pop_message_spec (now : Int) (s : MemoryStorage) (name : String) (qd : QueueData)
    (h : getQueueData s name = some qd) :
    (∀ pre m post, qd.messages = pre ++ m :: post →
        (∀ x ∈ pre, x.is_expired now = true) → m.is_expired now = false →
        pop_message now s name =
          Except.ok (some (deliverMark m),
            setQueueData s name
              { qd with
                messages := post
                in_flight := ifInsert qd.in_flight (deliverMark m).id (deliverMark m) }))
    ∧ ((∀ x ∈ qd.messages, x.is_expired now = true) →
        pop_message now s name =
          Except.ok (none, setQueueData s name { qd with messages := [] })) := by
  constructor
  · intro pre m post hsplit hpre hm
    simp [pop_message, h, hsplit, popLoop_first_live now pre m post qd.in_flight hpre hm]
  · intro hall
    simp [pop_message, h, popLoop_all_expired now qd.messages qd.in_flight hall]

def exMsgExpired : Message := { id := 1, body := [0], expires_at := some 5 }

def exMsgLive : Message := { id := 2, body := [0] }

def exQueue1 : Queue := { id := 10, name := "q" }

def exPopQd : QueueData :=
  { queue := exQueue1, messages := [exMsgExpired, exMsgLive], in_flight := [] }

def exPopS : MemoryStorage := [("q", exPopQd)]

/-- Witness for C1 at a concrete state whose head message is expired at
time 10 and whose second message is not. -/
theorem pop_message_spec_witness :
    pop_message 10 exPopS "q" =
      Except.ok (some (deliverMark exMsgLive),
        setQueueData exPopS "q"
          { exPopQd with
            messages := []
            in_flight := ifInsert exPopQd.in_flight (deliverMark exMsgLive).id
              (deliverMark exMsgLive) }) :=
  (pop_message_spec 10 exPopS "q" exPopQd (by rfl)).1
    [exMsgExpired] exMsgLive [] (by rfl) (by decide) (by decide)

/-! ### C2: nack_message -/

/-- C2: `nack_message` on an in-flight message removes it from in-flight;
if its recorded `delivery_count` is at least the queue's `max_retries` it
is discarded entirely (the code sets `Failed` on the dropped copy);
otherwise it is reinserted with status `Pending` at the head of the
pending sequence, ahead of all currently pending messages.  The final
conjunct records that the nacked id is no longer an in-flight key. -/
theorem nack_message_spec (s : MemoryStorage) (name : String) (i : Nat)
    (qd : QueueData) (m : Message)
    (h : getQueueData s name = some qd) (hm : ifLookup qd.in_flight i = some m) :
    (qd.queue.config.max_retries ≤ m.delivery_count →
        nack_message s name i =
          Except.ok (setQueueData s name { qd with in_flight := ifErase qd.in_flight i }))
    ∧ (m.delivery_count < qd.queue.config.max_retries →
        nack_message s name i =
          Except.ok (setQueueData s name
            { qd with
              messages := { m with status := MessageStatus.pending } :: qd.messages
              in_flight := ifErase qd.in_flight i }))
    ∧ (∀ j, j ∈ (ifErase qd.in_flight i).map (fun p => p.1) → j ≠ i) := by
  refine ⟨?_, ?_, ?_⟩
  · intro hret
    simp [nack_message, h, hm, hret]
  · intro hret
    simp [nack_message, h, hm, Nat.not_le.mpr hret]
  · intro j hj
    simp only [ifErase, List.mem_map, List.mem_filter] at hj
    rcases hj with ⟨p, ⟨_, hne⟩, hpj⟩
    intro hji
    rw [hpj] at hne
    simp [hji] at hne

def exNackMsg : Message :=
  { id := 7, body := [1], status := MessageStatus.delivered, delivery_count := 1 }

def exNackQueue : Queue := { id := 11, name := "q", config := { max_retries := 1 } }

def exNackQd : QueueData :=
  { queue := exNackQueue, messages := [], in_flight := [(7, exNackMsg)] }

def exNackS : MemoryStorage := [("q", exNackQd)]

/-- Witness for C2: with `max_retries = 1` and `delivery_count = 1` the
nack discards the message from in-flight without requeueing it. -/
theorem nack_message_spec_witness :
    nack_message exNackS "q" 7 =
      Except.ok (setQueueData exNackS "q"
        { exNackQd with in_flight := ifErase exNackQd.in_flight 7 }) :=
  (nack_message_spec exNackS "q" 7 exNackQd exNackMsg (by rfl) (by rfl)).1 (by decide)

/-! ### C3: the max_retries = 1 nack scenario -/

def c3Queue : Queue := { id := 3, name := "q", config := { max_retries := 1 } }

def c3Msg : Message := { id := 7, body := [1] }

def c3S0 : MemoryStorage := [("q", QueueData.new c3Queue)]

def c3S1 : MemoryStorage :=
  [("q", { queue := c3Queue, messages := [c3Msg], in_flight := [] })]

def c3S2 : MemoryStorage :=
  [("q", { queue := c3Queue, messages := [], in_flight := [(7, deliverMark c3Msg)] })]

def c3S3 : MemoryStorage :=
  [("q", { queue := c3Queue, messages := [], in_flight := [] })]

/-- C3 counterexample: on a queue with `max_retries = 1`, after publish,
pop (`delivery_count = 1`) and a first nack, the message is NOT returned
to pending: the first nack already discards it (`1 ≥ max_retries`), so a
second pop returns `none` — there is no second delivery with
`delivery_count = 2`, and a second nack fails with `MessageNotFound`. -/
theorem nack_retry_scenario_cex :
    push_message c3S0 "q" c3Msg = Except.ok (7, c3S1) ∧
    pop_message 0 c3S1 "q" = Except.ok (some (deliverMark c3Msg), c3S2) ∧
    (deliverMark c3Msg).delivery_count = 1 ∧
    nack_message c3S2 "q" 7 = Except.ok c3S3 ∧
    pop_message 0 c3S3 "q" = Except.ok (none, c3S3) ∧
    nack_message c3S3 "q" 7 = Except.error (Error.messageNotFound "7") :=
  ⟨rfl, rfl, rfl, rfl, rfl, rfl⟩

/-- C3 amended: for a queue with `max_retries = 1`, after publishing one
message and popping it (`delivery_count` becomes 1), already the FIRST
nack sets the message's status to `Failed` and discards it (since
`delivery_count 1 ≥ max_retries 1`); afterwards queue stats report
`message_count = 0` and a further pop returns `none`. -/
theorem nack_retry_scenario_amended :
    push_message c3S0 "q" c3Msg = Except.ok (7, c3S1) ∧
    pop_message 0 c3S1 "q" = Except.ok (some (deliverMark c3Msg), c3S2) ∧
    (deliverMark c3Msg).delivery_count = 1 ∧
    1 ≤ c3Queue.config.max_retries ∧
    nack_message c3S2 "q" 7 = Except.ok c3S3 ∧
    get_queue_stats c3S3 "q" =
      Except.ok { message_count := 0, pending_count := 0, in_flight_count := 0,
                  size_bytes := 0, consumer_count := 0, publish_rate := 0,
                  consume_rate := 0 } ∧
    pop_message 0 c3S3 "q" = Except.ok (none, c3S3) :=
  ⟨rfl, rfl, rfl, by decide, rfl, rfl, rfl⟩

/-! ### C4: purge_queue -/

def exPurgeQd : QueueData :=
  { queue := exQueue1, messages := [],
    in_flight := [(9, { id := 9, body := [2], status := MessageStatus.delivered,
                        delivery_count := 1 })] }

def exPurgeS : MemoryStorage := [("q", exPurgeQd)]

/-- C4 counterexample: a queue holding zero pending and one in-flight
message.  `purge_queue` removes the in-flight message as well, yet
returns 0 — not the total number of messages removed (which is 1). -/
theorem purge_count_cex :
    exPurgeQd.messages.length = 0 ∧
    exPurgeQd.in_flight.length = 1 ∧
    purge_queue exPurgeS "q" =
      Except.ok (0, [("q", { exPurgeQd with messages := [], in_flight := [] })]) :=
  ⟨rfl, rfl, rfl⟩

/-- C4 amended: for every existing queue, `purge_queue` removes all
pending and all in-flight messages and succeeds even when the queue holds
zero messages, but the count it returns is the number of PENDING messages
removed only (in-flight removals are not counted); for a non-existent
queue name it fails with `QueueNotFound`. -/
theorem purge_queue_spec (s : MemoryStorage) (name : String) :
    (∀ qd, getQueueData s name = some qd →
        purge_queue s name =
          Except.ok (qd.messages.length,
            setQueueData s name { qd with messages := [], in_flight := [] }))
    ∧ (getQueueData s name = none →
        purge_queue s name = Except.error (Error.queueNotFound name)) := by
  constructor
  · intro qd h
    simp [purge_queue, h]
  · intro h
    simp [purge_queue, h]

/-- Witness for C4's amended theorem: purging the one-in-flight queue
yields count 0 and clears both containers; purging a missing queue fails. -/
theorem purge_queue_spec_witness :
    purge_queue exPurgeS "q" =
      Except.ok (exPurgeQd.messages.length,
        setQueueData exPurgeS "q" { exPurgeQd with messages := [], in_flight := [] }) ∧
    purge_queue exPurgeS "nope" = Except.error (Error.queueNotFound "nope") :=
  ⟨(purge_queue_spec exPurgeS "q").1 exPurgeQd (by rfl),
   (purge_queue_spec exPurgeS "nope").2 (by rfl)⟩

/-! ### C5: push_message capacity check -/

/-- C5: for an existing queue, `push_message` fails with `QueueFull` if
and only if `max_messages > 0` and the pending length has reached
`max_messages` — the check involves only the pending count, never the
in-flight map (which is arbitrary here); with `max_messages = 0`, or
below the limit, the push succeeds, appends the message at the tail of
pending, and returns its id. -/
theorem push_message_spec (s : MemoryStorage) (name : String) (msg : Message)
    (qd : QueueData) (h : getQueueData s name = some qd) :
    (push_message s name msg = Except.error (Error.queueFull name) ↔
      0 < qd.queue.config.max_messages ∧
        qd.queue.config.max_messages ≤ qd.messages.length)
    ∧ (qd.queue.config.max_messages = 0 ∨
        qd.messages.length < qd.queue.config.max_messages →
        push_message s name msg =
          Except.ok (msg.id, setQueueData s name
            { qd with messages := qd.messages ++ [msg] })) := by
  constructor
  · constructor
    · intro he
      by_contra hc
      simp [push_message, h, hc] at he
    · intro hc
      simp [push_message, h, hc]
  · intro hc
    have hnot : ¬(0 < qd.queue.config.max_messages ∧
        qd.queue.config.max_messages ≤ qd.messages.length) := by
      rcases hc with h0 | hlt
      · simp [h0]
      · intro hand
        exact absurd hand.2 (Nat.not_le.mpr hlt)
    simp [push_message, h, hnot]

def exFullQueue : Queue := { id := 12, name := "q", config := { max_messages := 1 } }

def exFullQd : QueueData :=
  { queue := exFullQueue, messages := [exMsgLive], in_flight := [] }

def exFullS : MemoryStorage := [("q", exFullQd)]

/-- Witness for C5: pushing onto a queue with `max_messages = 1` that
already holds one pending message fails with `QueueFull`. -/
theorem push_message_spec_witness :
    push_message exFullS "q" exMsgExpired = Except.error (Error.queueFull "q") :=
  (push_message_spec exFullS "q" exMsgExpired exFullQd (by rfl)).1.mpr (by decide)

/-! ### C10: peek_message performs no expiry check -/

/-- C10: when the head of the pending sequence is expired, `peek_message`
still returns exactly that stored message (delivery_count untouched) and
leaves the whole storage state unchanged, whereas `pop_message` on the
same state never returns that expired message. -/
theorem peek_message_spec (now : Int) (s : MemoryStorage) (name : String)
    (qd : QueueData) (m : Message) (rest : List Message)
    (h : getQueueData s name = some qd) (hmsg : qd.messages = m :: rest)
    (hexp : m.is_expired now = true) :
    peek_message s name = Except.ok (some m, s) ∧
    (∀ r s2, pop_message now s name = Except.ok (r, s2) → r ≠ some m) := by
  constructor
  · simp [peek_message, h, hmsg]
  · intro r s2 hpop hcontra
    subst hcontra
    simp only [pop_message, h, Except.ok.injEq, Prod.mk.injEq] at hpop
    have hfalse := popLoop_fst_not_expired now qd.messages qd.in_flight m hpop.1
    rw [hexp] at hfalse
    exact absurd hfalse (by simp)

/-- Witness for C10: at time 10 the head of `exPopS`'s queue is expired;
peek returns it unchanged together with the unchanged state. -/
theorem peek_message_spec_witness :
    peek_message exPopS "q" = Except.ok (some exMsgExpired, exPopS) :=
  (peek_message_spec 10 exPopS "q" exPopQd exMsgExpired [exMsgLive]
    (by rfl) (by rfl) (by decide)).1

/-! ### C8: cleanup_expired -/

theorem cleanup_expired_eq (now : Int) (s : MemoryStorage) :
    cleanup_expired now s =
      ((s.map (fun p => p.2.messages.length - (retainLive now p.2.messages).length)).sum,
       s.map (fun p => (p.1, { p.2 with messages := retainLive now p.2.messages }))) := by
  induction s with
  | nil => rfl
  | cons p rest ih => simp [cleanup_expired, ih]

theorem getQueueData_map (s : MemoryStorage) (name : String) (g : QueueData → QueueData) :
    getQueueData (s.map (fun p => (p.1, g p.2))) name = (getQueueData s name).map g := by
  induction s with
  | nil => rfl
  | cons p rest ih =>
    by_cases hp : (p.1 == name) = true
    · simp [getQueueData, List.find?, hp]
    · simp only [getQueueData, List.map_cons, List.find?, hp] at ih ⊢
      exact ih

theorem retainLive_eq (now : Int) (ms : List Message) :
    retainLive now ms = ms.filter (fun m => !(m.is_expired now)) := by
  unfold retainLive
  congr 1
  funext m
  cases hm : m.expires_at with
  | none => simp [Message.is_expired, hm]
  | some exp =>
    simp only [Message.is_expired, hm]
    by_cases hlt : exp < now
    · simp [hlt, Int.not_le.mpr hlt]
    · simp [hlt, Int.not_lt.mp hlt]

theorem removed_count_eq (now : Int) (ms : List Message) :
    ms.length - (retainLive now ms).length = ms.countP (fun m => m.is_expired now) := by
  rw [retainLive_eq]
  have h1 : (ms.filter (fun m => !(m.is_expired now))).length
      = ms.countP (fun m => !(m.is_expired now)) := (List.countP_eq_length_filter _ _).symm
  have h2 := List.length_eq_countP_add_countP (p := fun m => m.is_expired now) ms
  have h3 : ms.countP (fun m => !(m.is_expired now))
      = ms.countP (fun m => ¬(m.is_expired now = true)) := by
    simp
  rw [h1, h3]
  omega

/-- C8: `cleanup_expired` captures one `now` (the single `Int` parameter
used for every queue); for every queue it removes from pending exactly
the messages that are expired at that instant (`expires_at` set and
strictly before `now`, the final conjunct), leaves the in-flight map and
queue metadata untouched, and returns the total number of removed
messages across all queues.  Its result type carries no error case: it
never fails. -/
theorem cleanup_expired_spec (now : Int) (s : MemoryStorage) :
    (∀ name qd, getQueueData s name = some qd →
        getQueueData (cleanup_expired now s).2 name =
          some { qd with messages := qd.messages.filter (fun m => !(m.is_expired now)) })
    ∧ (cleanup_expired now s).1 =
        (s.map (fun p => p.2.messages.countP (fun m => m.is_expired now))).sum
    ∧ (∀ m : Message, m.is_expired now = true ↔ ∃ e, m.expires_at = some e ∧ e < now) := by
  refine ⟨?_, ?_, ?_⟩
  · intro name qd h
    rw [cleanup_expired_eq]
    rw [getQueueData_map s name (fun qd => { qd with messages := retainLive now qd.messages })]
    rw [h]
    simp [retainLive_eq]
  · rw [cleanup_expired_eq]
    dsimp only
    congr 1
    apply List.map_congr_left
    intro p _
    exact removed_count_eq now p.2.messages
  · intro m
    cases hm : m.expires_at with
    | none => simp [Message.is_expired, hm]
    | some exp => simp [Message.is_expired, hm]

/-- Witness for C8: sweeping `exPopS` at time 10 drops the expired head
and keeps the live message, reporting one removal. -/
theorem cleanup_expired_spec_witness :
    getQueueData (cleanup_expired 10 exPopS).2 "q" =
      some { exPopQd with
             messages := exPopQd.messages.filter (fun m => !(m.is_expired 10)) } ∧
    (cleanup_expired 10 exPopS).1 = 1 :=
  ⟨(cleanup_expired_spec 10 exPopS).1 "q" exPopQd (by rfl), by decide⟩

/-! ### C7: FIFO order, priority never consulted -/

theorem pop_messages_all_live (now : Int) (name : String) :
    ∀ (ms : List Message) (s : MemoryStorage) (qd : QueueData),
      getQueueData s name = some qd → qd.messages = ms →
      (∀ m ∈ ms, m.is_expired now = false) →
      ∃ s2, pop_messages now s name ms.length = Except.ok (ms.map deliverMark, s2) := by
  intro ms
  induction ms with
  | nil =>
    intro s qd _ _ _
    exact ⟨s, rfl⟩
  | cons m rest ih =>
    intro s qd h hq hexp
    have hpl := popLoop_first_live now [] m rest qd.in_flight (by simp)
      (hexp m (by simp))
    simp only [List.nil_append] at hpl
    have hpm : pop_message now s name =
        Except.ok (some (deliverMark m),
          setQueueData s name
            { qd with
              messages := rest
              in_flight := ifInsert qd.in_flight (deliverMark m).id (deliverMark m) }) := by
      simp [pop_message, h, hq, hpl]
    obtain ⟨s2, h2⟩ := ih
      (setQueueData s name
        { qd with
          messages := rest
          in_flight := ifInsert qd.in_flight (deliverMark m).id (deliverMark m) })
      { qd with
        messages := rest
        in_flight := ifInsert qd.in_flight (deliverMark m).id (deliverMark m) }
      (getQueueData_set_same s name qd _ h) rfl
      (fun x hx => hexp x (by simp [hx]))
    refine ⟨s2, ?_⟩
    simp [pop_messages, hpm, h2]

/-- C7: on a queue where nothing is expired (and no nack or purge
happens), `pop_messages` — which is just successive `pop_message` calls —
returns the pending messages in exactly insertion order, each delivered
copy keeping its position; moreover rewriting every stored priority
through an arbitrary function `f` changes nothing about the order of the
returned ids: the priority field is never consulted for ordering. -/
theorem fifo_order (now : Int) (s : MemoryStorage) (name : String) (qd : QueueData)
    (h : getQueueData s name = some qd)
    (hexp : ∀ m ∈ qd.messages, m.is_expired now = false) :
    (∃ s2, pop_messages now s name qd.messages.length =
        Except.ok (qd.messages.map deliverMark, s2))
    ∧ (∀ f : Nat → Nat, ∃ ms2 s2,
        pop_messages now
            (setQueueData s name
              { qd with messages :=
                  qd.messages.map (fun m => { m with priority := f m.priority }) })
            name qd.messages.length =
          Except.ok (ms2, s2) ∧
        ms2.map (fun m => m.id) = qd.messages.map (fun m => m.id)) := by
  constructor
  · exact pop_messages_all_live now name qd.messages s qd h rfl hexp
  · intro f
    have hget := getQueueData_set_same s name qd
      { qd with messages := qd.messages.map (fun m => { m with priority := f m.priority }) } h
    have hexp2 : ∀ m ∈ qd.messages.map (fun m => { m with priority := f m.priority }),
        m.is_expired now = false := by
      intro m hm
      simp only [List.mem_map] at hm
      obtain ⟨m0, hm0, rfl⟩ := hm
      exact hexp m0 hm0
    obtain ⟨s2, h2⟩ := pop_messages_all_live now name
      (qd.messages.map (fun m => { m with priority := f m.priority })) _ _ hget rfl hexp2
    refine ⟨(qd.messages.map (fun m => { m with priority := f m.priority })).map deliverMark,
      s2, ?_, ?_⟩
    · rw [← List.length_map qd.messages (fun m => { m with priority := f m.priority })]
      exact h2
    · rw [List.map_map, List.map_map]
      apply List.map_congr_left
      intro m _
      rfl

def c7Msgs : List Message :=
  [{ id := 21, body := [], priority := 9 },
   { id := 22, body := [], priority := 1 },
   { id := 23, body := [], priority := 5 }]

def c7Qd : QueueData := { queue := exQueue1, messages := c7Msgs, in_flight := [] }

def c7S : MemoryStorage := [("q", c7Qd)]

/-- Witness for C7: three messages with scrambled priorities come back in
insertion order, also after remapping every priority through
`fun p => 10 - p`. -/
theorem fifo_order_witness :
    (∃ s2, pop_messages 0 c7S "q" c7Qd.messages.length =
        Except.ok (c7Qd.messages.map deliverMark, s2))
    ∧ (∃ ms2 s2,
        pop_messages 0
            (setQueueData c7S "q"
              { c7Qd with messages :=
                  c7Qd.messages.map (fun m => { m with priority := (fun p => 10 - p) m.priority }) })
            "q" c7Qd.messages.length =
          Except.ok (ms2, s2) ∧
        ms2.map (fun m => m.id) = c7Qd.messages.map (fun m => m.id)) :=
  ⟨(fifo_order 0 c7S "q" c7Qd (by rfl) (by decide)).1,
   (fifo_order 0 c7S "q" c7Qd (by rfl) (by decide)).2 (fun p => 10 - p)⟩

/-! ### C6: the pending/in-flight separation invariant -/

/-- The ids of the pending messages of a queue, in order. -/
def pendingIds (qd : QueueData) : List Nat := qd.messages.map (fun m => m.id)

/-- The keys of the in-flight map of a queue. -/
def inFlightIds (qd : QueueData) : List Nat := qd.in_flight.map (fun p => p.1)

/-- All ids tracked by a queue. -/
def queueIds (qd : QueueData) : List Nat := pendingIds qd ++ inFlightIds qd

/-- Per-queue invariant: no id is tracked twice (in particular no id is
both pending and in-flight), and every in-flight entry is keyed by the id
of the message it stores. -/
def QueueInv (qd : QueueData) : Prop :=
  (queueIds qd).Nodup ∧ ∀ q ∈ qd.in_flight, q.2.id = q.1

/-- Storage-wide invariant. -/
def StoreInv (s : MemoryStorage) : Prop := ∀ p ∈ s, QueueInv p.2

theorem mem_setQueueData (s : MemoryStorage) (name : String) (qd : QueueData)
    (p : String × QueueData) (hp : p ∈ setQueueData s name qd) :
    p.2 = qd ∨ p ∈ s := by
  simp only [setQueueData, List.mem_map] at hp
  obtain ⟨p0, hp0, hpe⟩ := hp
  by_cases h : (p0.1 == name) = true
  · rw [if_pos h] at hpe
    left
    rw [← hpe]
  · rw [if_neg h] at hpe
    right
    rw [← hpe]
    exact hp0

theorem getQueueData_mem (s : MemoryStorage) (name : String) (qd : QueueData)
    (h : getQueueData s name = some qd) : ∃ n, (n, qd) ∈ s := by
  simp only [getQueueData, Option.map_eq_some'] at h
  obtain ⟨p, hfind, hsnd⟩ := h
  refine ⟨p.1, ?_⟩
  rw [← hsnd]
  exact List.mem_of_find?_eq_some hfind

theorem storeInv_get (s : MemoryStorage) (hinv : StoreInv s) (name : String)
    (qd : QueueData) (h : getQueueData s name = some qd) : QueueInv qd := by
  obtain ⟨n, hm⟩ := getQueueData_mem s name qd h
  exact hinv (n, qd) hm

theorem storeInv_set (s : MemoryStorage) (name : String) (qd : QueueData)
    (hinv : StoreInv s) (hqd : QueueInv qd) : StoreInv (setQueueData s name qd) := by
  intro p hp
  rcases mem_setQueueData s name qd p hp with h1 | h2
  · rw [h1]
    exact hqd
  · exact hinv p h2

theorem ifLookup_mem (l : List (Nat × Message)) (i : Nat) (m : Message)
    (h : ifLookup l i = some m) : (i, m) ∈ l := by
  simp only [ifLookup, Option.map_eq_some'] at h
  obtain ⟨p, hfind, h2⟩ := h
  have h1 : p.1 = i := by simpa using List.find?_some hfind
  have hmem := List.mem_of_find?_eq_some hfind
  rw [← h1, ← h2]
  exact hmem

theorem ifLookup_eq_none (l : List (Nat × Message)) (i : Nat)
    (h : i ∉ l.map (fun p => p.1)) : ifLookup l i = none := by
  simp only [ifLookup, Option.map_eq_none', List.find?_eq_none]
  intro p hp
  simp only [beq_iff_eq]
  intro he
  exact h (List.mem_map.mpr ⟨p, hp, he⟩)

theorem ifErase_key_not_mem (l : List (Nat × Message)) (i : Nat) :
    i ∉ (ifErase l i).map (fun p => p.1) := by
  intro hmem
  obtain ⟨p, hp, hpi⟩ := List.mem_map.mp hmem
  have := (List.mem_filter.mp hp).2
  rw [hpi] at this
  simp at this

theorem ifErase_ids_sublist (l : List (Nat × Message)) (i : Nat) :
    List.Sublist ((ifErase l i).map (fun p => p.1)) (l.map (fun p => p.1)) :=
  (List.filter_sublist l).map _

theorem ifLookup_key_mem (l : List (Nat × Message)) (i : Nat) (m : Message)
    (h : ifLookup l i = some m) : i ∈ l.map (fun p => p.1) :=
  List.mem_map.mpr ⟨(i, m), ifLookup_mem l i m h, rfl⟩

theorem queueInv_empty (qd : QueueData) :
    QueueInv { qd with messages := [], in_flight := [] } := by
  constructor
  · simp [queueIds, pendingIds, inFlightIds]
  · intro q hq
    cases hq

theorem queueInv_new (q : Queue) : QueueInv (QueueData.new q) := by
  constructor
  · simp [queueIds, pendingIds, inFlightIds, QueueData.new]
  · intro x hx
    cases hx

theorem queueInv_push (qd : QueueData) (msg : Message) (hq : QueueInv qd)
    (hfresh : msg.id ∉ queueIds qd) :
    QueueInv { qd with messages := qd.messages ++ [msg] } := by
  obtain ⟨hnd, hkey⟩ := hq
  refine ⟨?_, hkey⟩
  simp only [queueIds, pendingIds, inFlightIds, List.map_append, List.map_cons,
    List.map_nil] at hnd hfresh ⊢
  have heq : (qd.messages.map (fun m => m.id) ++ [msg.id]) ++
        qd.in_flight.map (fun p => p.1)
      = qd.messages.map (fun m => m.id) ++
        msg.id :: qd.in_flight.map (fun p => p.1) := by
    simp
  rw [heq, List.nodup_middle]
  exact List.nodup_cons.mpr ⟨by simpa using hfresh, hnd⟩

theorem queueInv_erase (qd : QueueData) (i : Nat) (hq : QueueInv qd) :
    QueueInv { qd with in_flight := ifErase qd.in_flight i } := by
  obtain ⟨hnd, hkey⟩ := hq
  constructor
  · simp only [queueIds, pendingIds, inFlightIds] at hnd ⊢
    exact hnd.sublist ((ifErase_ids_sublist qd.in_flight i).append_left _)
  · intro q hq2
    exact hkey q (List.mem_of_mem_filter hq2)

theorem queueInv_requeue (qd : QueueData) (i : Nat) (msg : Message) (hq : QueueInv qd)
    (hm : ifLookup qd.in_flight i = some msg) :
    QueueInv { qd with
      messages := { msg with status := MessageStatus.pending } :: qd.messages
      in_flight := ifErase qd.in_flight i } := by
  obtain ⟨hnd, hkey⟩ := hq
  have hid : msg.id = i := hkey (i, msg) (ifLookup_mem qd.in_flight i msg hm)
  have hkmem : i ∈ inFlightIds qd := ifLookup_key_mem qd.in_flight i msg hm
  constructor
  · simp only [queueIds, pendingIds, inFlightIds, List.map_cons] at hnd ⊢
    rw [hid, List.cons_append]
    refine List.nodup_cons.mpr ⟨?_, ?_⟩
    · intro hc
      rcases List.mem_append.mp hc with h1 | h2
      · exact (List.nodup_append.mp hnd).2.2 h1 hkmem
      · exact ifErase_key_not_mem qd.in_flight i h2
    · refine List.Nodup.sublist ?_ hnd
      exact (ifErase_ids_sublist qd.in_flight i).append_left _
  · intro q hq2
    exact hkey q (List.mem_of_mem_filter hq2)

theorem deliverMark_id (m : Message) : (deliverMark m).id = m.id := rfl

theorem popLoop_inv (now : Int) :
    ∀ (pending : List Message) (inFlight : List (Nat × Message)),
      (pending.map (fun m => m.id) ++ inFlight.map (fun p => p.1)).Nodup →
      (∀ q ∈ inFlight, q.2.id = q.1) →
      ((popLoop now pending inFlight).2.1.map (fun m => m.id) ++
          (popLoop now pending inFlight).2.2.map (fun p => p.1)).Nodup ∧
        ∀ q ∈ (popLoop now pending inFlight).2.2, q.2.id = q.1 := by
  intro pending
  induction pending with
  | nil =>
    intro inFlight hnd hkey
    exact ⟨by simpa using hnd, hkey⟩
  | cons m rest ih =>
    intro inFlight hnd hkey
    have hnd0 : (m.id :: (rest.map (fun x => x.id) ++ inFlight.map (fun p => p.1))).Nodup := by
      simpa using hnd
    obtain ⟨hhead, htail⟩ := List.nodup_cons.mp hnd0
    by_cases hm : m.is_expired now = true
    · simp only [popLoop, hm, if_true]
      exact ih inFlight htail hkey
    · simp only [popLoop, hm, if_false, Bool.not_eq_true, Bool.false_eq_true]
      constructor
      · simp only [ifInsert, List.map_cons, deliverMark_id]
        rw [List.nodup_middle]
        refine List.nodup_cons.mpr ⟨?_, ?_⟩
        · intro hc
          rcases List.mem_append.mp hc with h1 | h2
          · exact hhead (List.mem_append.mpr (Or.inl h1))
          · exact ifErase_key_not_mem inFlight m.id h2
        · exact htail.sublist
            ((ifErase_ids_sublist inFlight m.id).append_left _)
      · intro q hq
        simp only [ifInsert] at hq
        rcases List.mem_cons.mp hq with h1 | h2
        · rw [h1]
        · exact hkey q (List.mem_of_mem_filter h2)

theorem queueInv_retain (now : Int) (qd : QueueData) (hq : QueueInv qd) :
    QueueInv { qd with messages := retainLive now qd.messages } := by
  obtain ⟨hnd, hkey⟩ := hq
  refine ⟨?_, hkey⟩
  simp only [queueIds, pendingIds, inFlightIds, retainLive] at hnd ⊢
  exact hnd.sublist (((List.filter_sublist qd.messages).map _).append_right _)

theorem storeInv_cleanup (now : Int) (s : MemoryStorage) (hinv : StoreInv s) :
    StoreInv (cleanup_expired now s).2 := by
  rw [cleanup_expired_eq]
  intro p hp
  simp only [List.mem_map] at hp
  obtain ⟨p0, hp0, hpe⟩ := hp
  rw [← hpe]
  exact queueInv_retain now p0.2 (hinv p0 hp0)

theorem storeInv_create (s : MemoryStorage) (q : Queue) (hinv : StoreInv s) :
    StoreInv (s ++ [(q.name, QueueData.new q)]) := by
  intro p hp
  rcases List.mem_append.mp hp with h1 | h2
  · exact hinv p h1
  · have hp2 : p = (q.name, QueueData.new q) := by simpa using h2
    rw [hp2]
    exact queueInv_new q

theorem storeInv_filter (s : MemoryStorage) (f : String × QueueData → Bool)
    (hinv : StoreInv s) : StoreInv (s.filter f) :=
  fun p hp => hinv p (List.mem_of_mem_filter hp)

/-- Engine traces: states reachable from the empty storage through
successful operations.  A pushed message's id is fresh for its target
queue, mirroring the random-UUID id generation of `MessageId::new` (the
spec's "128-bit random unique value"). -/
inductive Reachable : MemoryStorage → Prop
  | init : Reachable MemoryStorage.new
  | create (s : MemoryStorage) (q q2 : Queue) (s2 : MemoryStorage) :
      Reachable s → create_queue s q = Except.ok (q2, s2) → Reachable s2
  | deleteQ (s : MemoryStorage) (name : String) (s2 : MemoryStorage) :
      Reachable s → delete_queue s name = Except.ok s2 → Reachable s2
  | push (s : MemoryStorage) (name : String) (msg : Message) (i : Nat)
      (s2 : MemoryStorage) :
      Reachable s →
      (∀ qd, getQueueData s name = some qd → msg.id ∉ queueIds qd) →
      push_message s name msg = Except.ok (i, s2) → Reachable s2
  | pop (now : Int) (s : MemoryStorage) (name : String) (r : Option Message)
      (s2 : MemoryStorage) :
      Reachable s → pop_message now s name = Except.ok (r, s2) → Reachable s2
  | ack (s : MemoryStorage) (name : String) (i : Nat) (s2 : MemoryStorage) :
      Reachable s → ack_message s name i = Except.ok s2 → Reachable s2
  | nack (s : MemoryStorage) (name : String) (i : Nat) (s2 : MemoryStorage) :
      Reachable s → nack_message s name i = Except.ok s2 → Reachable s2
  | purge (s : MemoryStorage) (name : String) (c : Nat) (s2 : MemoryStorage) :
      Reachable s → purge_queue s name = Except.ok (c, s2) → Reachable s2
  | cleanup (now : Int) (s : MemoryStorage) :
      Reachable s → Reachable (cleanup_expired now s).2

theorem storeInv_reachable (s : MemoryStorage) (h : Reachable s) : StoreInv s := by
  induction h with
  | init =>
    intro p hp
    cases hp
  | create s q q2 s2 _ hop ih =>
    simp only [create_queue] at hop
    split at hop
    · exact Except.noConfusion hop
    · have h2 := congrArg Prod.snd (Except.ok.inj hop)
      dsimp at h2
      rw [← h2]
      exact storeInv_create s q ih
  | deleteQ s name s2 _ hop ih =>
    simp only [delete_queue] at hop
    split at hop
    · have h2 := Except.ok.inj hop
      rw [← h2]
      exact storeInv_filter s _ ih
    · exact Except.noConfusion hop
  | push s name msg i s2 _ hfresh hop ih =>
    cases hget : getQueueData s name with
    | none =>
      simp only [push_message, hget] at hop
      exact Except.noConfusion hop
    | some qd =>
      simp only [push_message, hget] at hop
      split at hop
      · exact Except.noConfusion hop
      · have h2 := congrArg Prod.snd (Except.ok.inj hop)
        dsimp at h2
        rw [← h2]
        exact storeInv_set s name _ ih
          (queueInv_push qd msg (storeInv_get s ih name qd hget) (hfresh qd hget))
  | pop now s name r s2 _ hop ih =>
    cases hget : getQueueData s name with
    | none =>
      simp only [pop_message, hget] at hop
      exact Except.noConfusion hop
    | some qd =>
      simp only [pop_message, hget] at hop
      have h2 := congrArg Prod.snd (Except.ok.inj hop)
      dsimp at h2
      rw [← h2]
      have hq := storeInv_get s ih name qd hget
      have hinv2 := popLoop_inv now qd.messages qd.in_flight hq.1 hq.2
      exact storeInv_set s name _ ih ⟨hinv2.1, hinv2.2⟩
  | ack s name i s2 _ hop ih =>
    cases hget : getQueueData s name with
    | none =>
      simp only [ack_message, hget] at hop
      exact Except.noConfusion hop
    | some qd =>
      cases hlk : ifLookup qd.in_flight i with
      | none =>
        simp only [ack_message, hget, hlk] at hop
        exact Except.noConfusion hop
      | some m =>
        simp only [ack_message, hget, hlk] at hop
        have h2 := Except.ok.inj hop
        rw [← h2]
        exact storeInv_set s name _ ih (queueInv_erase qd i (storeInv_get s ih name qd hget))
  | nack s name i s2 _ hop ih =>
    cases hget : getQueueData s name with
    | none =>
      simp only [nack_message, hget] at hop
      exact Except.noConfusion hop
    | some qd =>
      cases hlk : ifLookup qd.in_flight i with
      | none =>
        simp only [nack_message, hget, hlk] at hop
        exact Except.noConfusion hop
      | some m =>
        simp only [nack_message, hget, hlk] at hop
        have hq := storeInv_get s ih name qd hget
        split at hop
        · have h2 := Except.ok.inj hop
          rw [← h2]
          exact storeInv_set s name _ ih (queueInv_erase qd i hq)
        · have h2 := Except.ok.inj hop
          rw [← h2]
          exact storeInv_set s name _ ih (queueInv_requeue qd i m hq hlk)
  | purge s name c s2 _ hop ih =>
    cases hget : getQueueData s name with
    | none =>
      simp only [purge_queue, hget] at hop
      exact Except.noConfusion hop
    | some qd =>
      simp only [purge_queue, hget] at hop
      have h2 := congrArg Prod.snd (Except.ok.inj hop)
      dsimp at h2
      rw [← h2]
      exact storeInv_set s name _ ih (queueInv_empty qd)
  | cleanup now s _ ih =>
    exact storeInv_cleanup now s ih

theorem ack_nack_fail_after (s2 : MemoryStorage) (name : String) (i : Nat)
    (qd2 : QueueData) (hget2 : getQueueData s2 name = some qd2)
    (hnot : i ∉ inFlightIds qd2) :
    ack_message s2 name i = Except.error (Error.messageNotFound (toString i)) ∧
    nack_message s2 name i = Except.error (Error.messageNotFound (toString i)) := by
  have hnone : ifLookup qd2.in_flight i = none := ifLookup_eq_none _ _ hnot
  constructor
  · simp [ack_message, hget2, hnone]
  · simp [nack_message, hget2, hnone]

theorem erased_not_tracked (s : MemoryStorage) (name : String) (i : Nat)
    (qd : QueueData) (hq : QueueInv qd) (hget : getQueueData s name = some qd)
    (hkmem : i ∈ inFlightIds qd) (qd2 : QueueData)
    (hget2 : getQueueData
        (setQueueData s name { qd with in_flight := ifErase qd.in_flight i }) name
      = some qd2) :
    i ∉ pendingIds qd2 ∧ i ∉ inFlightIds qd2 := by
  have hset := getQueueData_set_same s name qd
    { qd with in_flight := ifErase qd.in_flight i } hget
  rw [hset] at hget2
  obtain rfl : qd2 = { qd with in_flight := ifErase qd.in_flight i } :=
    (Option.some.inj hget2).symm
  constructor
  · intro hc
    exact (List.nodup_append.mp hq.1).2.2 hc hkmem
  · exact ifErase_key_not_mem qd.in_flight i

/-- C6: in every state reachable by engine operations (with pushed ids
fresh for their queue, as UUID generation guarantees), no id is both
pending and in-flight in any queue; after a successful ack, or after a
nack whose recorded `delivery_count` has reached `max_retries` (the
Failed path), the id is tracked in neither pending nor in-flight of that
queue and every later ack or nack of it fails with `MessageNotFound`. -/
theorem lifecycle_invariant (s : MemoryStorage) (h : Reachable s) :
    (∀ p ∈ s, ∀ i : Nat, ¬(i ∈ pendingIds p.2 ∧ i ∈ inFlightIds p.2))
    ∧ (∀ name i s2, ack_message s name i = Except.ok s2 →
        (∀ qd2, getQueueData s2 name = some qd2 →
          i ∉ pendingIds qd2 ∧ i ∉ inFlightIds qd2) ∧
        ack_message s2 name i = Except.error (Error.messageNotFound (toString i)) ∧
        nack_message s2 name i = Except.error (Error.messageNotFound (toString i)))
    ∧ (∀ name i s2 qd m, getQueueData s name = some qd →
        ifLookup qd.in_flight i = some m →
        qd.queue.config.max_retries ≤ m.delivery_count →
        nack_message s name i = Except.ok s2 →
        (∀ qd2, getQueueData s2 name = some qd2 →
          i ∉ pendingIds qd2 ∧ i ∉ inFlightIds qd2) ∧
        ack_message s2 name i = Except.error (Error.messageNotFound (toString i)) ∧
        nack_message s2 name i = Except.error (Error.messageNotFound (toString i))) := by
  have hinv := storeInv_reachable s h
  refine ⟨?_, ?_, ?_⟩
  · intro p hp i hci
    exact (List.nodup_append.mp (hinv p hp).1).2.2 hci.1 hci.2
  · intro name i s2 hack
    cases hget : getQueueData s name with
    | none =>
      simp only [ack_message, hget] at hack
      exact Except.noConfusion hack
    | some qd =>
      cases hlk : ifLookup qd.in_flight i with
      | none =>
        simp only [ack_message, hget, hlk] at hack
        exact Except.noConfusion hack
      | some m =>
        simp only [ack_message, hget, hlk] at hack
        have h2 := Except.ok.inj hack
        have hq := storeInv_get s hinv name qd hget
        have hkmem : i ∈ inFlightIds qd := ifLookup_key_mem qd.in_flight i m hlk
        have hset := getQueueData_set_same s name qd
          { qd with in_flight := ifErase qd.in_flight i } hget
        rw [← h2]
        exact ⟨fun qd2 hq2 => erased_not_tracked s name i qd hq hget hkmem qd2 hq2,
          (ack_nack_fail_after _ name i _ hset (ifErase_key_not_mem qd.in_flight i)).1,
          (ack_nack_fail_after _ name i _ hset (ifErase_key_not_mem qd.in_flight i)).2⟩
  · intro name i s2 qd m hget hlk hretry hnack
    simp only [nack_message, hget, hlk] at hnack
    rw [if_pos hretry] at hnack
    have h2 := Except.ok.inj hnack
    have hq := storeInv_get s hinv name qd hget
    have hkmem : i ∈ inFlightIds qd := ifLookup_key_mem qd.in_flight i m hlk
    have hset := getQueueData_set_same s name qd
      { qd with in_flight := ifErase qd.in_flight i } hget
    rw [← h2]
    exact ⟨fun qd2 hq2 => erased_not_tracked s name i qd hq hget hkmem qd2 hq2,
      (ack_nack_fail_after _ name i _ hset (ifErase_key_not_mem qd.in_flight i)).1,
      (ack_nack_fail_after _ name i _ hset (ifErase_key_not_mem qd.in_flight i)).2⟩

/-- Witness for C6 along the concrete reachable trace
create → push → pop of the C3 scenario state. -/
theorem lifecycle_invariant_witness :
    (¬(7 ∈ pendingIds
          { queue := c3Queue, messages := [], in_flight := [(7, deliverMark c3Msg)] } ∧
       7 ∈ inFlightIds
          { queue := c3Queue, messages := [], in_flight := [(7, deliverMark c3Msg)] })) ∧
    ack_message c3S3 "q" 7 = Except.error (Error.messageNotFound "7") ∧
    nack_message c3S3 "q" 7 = Except.error (Error.messageNotFound "7") := by
  have hr0 : Reachable c3S0 :=
    Reachable.create MemoryStorage.new c3Queue c3Queue c3S0 Reachable.init (by rfl)
  have hr1 : Reachable c3S1 :=
    Reachable.push c3S0 "q" c3Msg 7 c3S1 hr0
      (by
        intro qd hqd
        have h7 : some (QueueData.new c3Queue) = some qd := hqd
        obtain rfl := Option.some.inj h7
        decide)
      (by rfl)
  have hr2 : Reachable c3S2 :=
    Reachable.pop 0 c3S1 "q" (some (deliverMark c3Msg)) c3S2 hr1 (by rfl)
  have hmain := lifecycle_invariant c3S2 hr2
  refine ⟨?_, ?_, ?_⟩
  · exact hmain.1
      ("q", { queue := c3Queue, messages := [], in_flight := [(7, deliverMark c3Msg)] })
      (List.mem_singleton.mpr rfl) 7
  · exact (hmain.2.1 "q" 7 c3S3 (by rfl)).2.1
  · exact (hmain.2.1 "q" 7 c3S3 (by rfl)).2.2

end FlowQ
